import Mathlib

/-! # Horse racing simulation: shallow embedding and verification

This file embeds the domain core of the horse-racing simulation
(value objects, the `RunningHorse` entity, the `Race` aggregate root,
the in-memory `EventBus` and the `StartRaceCommand` race driver) as
executable Lean definitions translated from the TypeScript sources, and
proves the specification claims about them.

Modelling conventions:
* TypeScript `Result<T, E>` (`Ok`/`Err`) is embedded as `Except E T`
  (`Except.ok` / `Except.error`).
* Integer-valued numeric state is embedded as `ℤ`/`ℕ`; `Math.random()`
  draws are rationals in `[0, 1)` supplied explicitly as arguments.
* In-place mutation of entities is embedded as explicit state passing:
  a mutating method of the source becomes a function returning the
  updated entity.
* `crypto.randomUUID()` id generation is embedded by supplying fresh
  identifiers (naturals) explicitly; identifiers play no computational
  role in any claim.
* Object reference identity among the horses of one race (used by the
  source's `indexOf` tiebreak and by the `results` array of references)
  is embedded by the horse's index in the fixed lineup list.
-/

namespace HorseRacing

/-! ## Errors

Embeds `src/domain/errors/RaceErrors.ts`: the five operational error
classes are the constructors of one inductive; each keeps the payload
its TypeScript constructor takes (race id, horse id, or race index). -/

inductive RaceError where
  | raceAlreadyFinished (raceId : ℕ)
  | raceNotStarted (raceId : ℕ)
  | horseAlreadyFinished (runningHorseId : ℕ)
  | raceNotFound (raceIndex : ℕ)
  | noHorses
deriving DecidableEq, Repr

/-- Embeds `ValidationError` from `src/domain/errors/ValidationError.ts`:
it carries the offending field name and the broken rule. -/
structure ValidationError where
  field : String
  rule : String
deriving DecidableEq, Repr

/-! ## Value objects -/

/-- Embeds the `Condition` value object: a validated integer in `[1, 100]`.
The raw input is a JavaScript number, embedded as `ℚ`; after the
`Number.isInteger` check the stored value is exact, embedded as `ℤ`. -/
structure Condition where
  value : ℤ
deriving DecidableEq, Repr

/-- Embeds `Condition.create`: rejects non-integers, values below 1 and
values above 100, in that order. -/
def Condition.create (value : ℚ) : Except ValidationError Condition :=
  if value.den ≠ 1 then
    .error ⟨"condition", "must be an integer"⟩
  else if value < 1 then
    .error ⟨"condition", "must be at least 1"⟩
  else if value > 100 then
    .error ⟨"condition", "must be at most 100"⟩
  else
    .ok ⟨value.num⟩

/-- Embeds the `HorseName` value object: the validated, trimmed name. -/
structure HorseName where
  value : String
deriving DecidableEq, Repr

/-- Characters accepted by the source's `NAME_PATTERN` regex
`^[a-zA-Z0-9\s\-']+$`: letters, digits, whitespace, hyphen, apostrophe. -/
def nameChar (c : Char) : Bool :=
  (c ≥ 'a' && c ≤ 'z') || (c ≥ 'A' && c ≤ 'Z') || (c ≥ '0' && c ≤ '9') ||
    c.isWhitespace || c = '-' || c = '\''

/-- Embeds `String.prototype.trim`: strips leading and trailing
whitespace. Strings are processed as their character lists. -/
def trimChars (l : List Char) : List Char :=
  ((l.dropWhile Char.isWhitespace).reverse.dropWhile Char.isWhitespace).reverse

/-- Embeds `HorseName.create`: trims, checks length in `[2, 30]`, then the
character pattern. -/
def HorseName.create (value : String) : Except ValidationError HorseName :=
  let trimmed := trimChars value.toList
  if trimmed.length < 2 then
    .error ⟨"name", "must be at least 2 characters"⟩
  else if trimmed.length > 30 then
    .error ⟨"name", "must be at most 30 characters"⟩
  else if !(trimmed.all nameChar) then
    .error ⟨"name", "can only contain letters, numbers, spaces, hyphens, and apostrophes"⟩
  else
    .ok ⟨String.mk trimmed⟩

/-- Embeds the `HorseColor` value object: a color normalized to lowercase
`#rrggbb` hex form. -/
structure HorseColor where
  value : String
deriving DecidableEq, Repr

/-- Lowercase hex digit for a value below 16. -/
def hexDigit (n : ℕ) : Char :=
  if n < 10 then Char.ofNat ('0'.toNat + n) else Char.ofNat ('a'.toNat + (n - 10))

/-- Two-digit lowercase hex rendering of a byte value, embedding the
source's `n.toString(16).padStart(2, '0')`. -/
def byteToHex (n : ℕ) : String :=
  String.mk [hexDigit (n / 16), hexDigit (n % 16)]

/-- Decides whether a character is a hexadecimal digit, case-insensitively
(the source's regexes carry the `i` flag). -/
def hexChar (c : Char) : Bool :=
  (c ≥ '0' && c ≤ '9') || (c ≥ 'a' && c ≤ 'f') || (c ≥ 'A' && c ≤ 'F')

/-- Embeds splitting a string on a single-character separator
(`String.prototype.split` / `splitOn`): always returns at least one
hunk, and one extra hunk per separator occurrence. -/
def splitOnChar (sep : Char) : List Char → List (List Char)
  | [] => [[]]
  | c :: t =>
    let rest := splitOnChar sep t
    if c = sep then [] :: rest
    else
      match rest with
      | h :: r => (c :: h) :: r
      | [] => [[c]]

/-- Decides whether a hunk is a run of 1 to 3 decimal digits, embedding
the `\d{1,3}` groups of the source's RGB regex. -/
def digits1to3 (s : List Char) : Bool :=
  1 ≤ s.length && s.length ≤ 3 && s.all fun c => '0' ≤ c && c ≤ '9'

/-- Numeric value of a decimal digit hunk, embedding `parseInt(s, 10)` on
input the regex already constrained to digits. -/
def parseDigits (s : List Char) : ℕ :=
  s.foldl (fun acc c => acc * 10 + (c.toNat - '0'.toNat)) 0

/-- Case-insensitive match of the fixed prefix `rgb(` (the only letters
the source's RGB regex matches case-insensitively). -/
def rgbHead : List Char → Bool
  | r :: g :: b :: '(' :: _ =>
    (r = 'r' || r = 'R') && (g = 'g' || g = 'G') && (b = 'b' || b = 'B')
  | _ => false

/-- Embeds a successful match of the source's RGB regex
`^rgb\(\s*(\d{1,3})\s*,\s*(\d{1,3})\s*,\s*(\d{1,3})\s*\)$/i` on an
already-trimmed input: returns the three captured digit groups. -/
def rgbMatch (s : List Char) : Option (ℕ × ℕ × ℕ) :=
  if rgbHead s && s.getLast? == some ')' then
    let inner := (s.drop 4).dropLast
    match (splitOnChar ',' inner).map trimChars with
    | [a, b, c] =>
      if digits1to3 a && digits1to3 b && digits1to3 c then
        some (parseDigits a, parseDigits b, parseDigits c)
      else none
    | _ => none
  else none

/-- Embeds a successful match of the source's hex regex
`^#([0-9a-f]{3}|[0-9a-f]{6})$/i` on an already-trimmed input: returns
the captured digit group. -/
def hexMatch (s : List Char) : Option (List Char) :=
  match s with
  | '#' :: rest =>
    if (rest.length = 3 || rest.length = 6) && rest.all hexChar then
      some rest
    else none
  | _ => none

/-- Numeric value of a hex digit character (either case). -/
def hexCharVal (c : Char) : ℕ :=
  if c ≤ '9' then c.toNat - '0'.toNat
  else if c ≤ 'F' then c.toNat - 'A'.toNat + 10
  else c.toNat - 'a'.toNat + 10

/-- Lowercases one character of a hex digit group. -/
def hexLower (c : Char) : Char := hexDigit (hexCharVal c)

/-- Embeds `HorseColor.create`: trims, tries the RGB form first (checking
each channel is at most 255 and normalizing to hex), then the hex form
(expanding shorthand `#rgb` and lowercasing), else fails. -/
def HorseColor.create (value : String) : Except ValidationError HorseColor :=
  let trimmed := trimChars value.toList
  match rgbMatch trimmed with
  | some (r, g, b) =>
    if r > 255 || g > 255 || b > 255 then
      .error ⟨"color", "RGB values must be between 0 and 255"⟩
    else
      .ok ⟨"#" ++ byteToHex r ++ byteToHex g ++ byteToHex b⟩
  | none =>
    match hexMatch trimmed with
    | some hex =>
      let expanded :=
        match hex with
        | [a, b, c] => [a, a, b, b, c, c]
        | l => l
      .ok ⟨"#" ++ String.mk (expanded.map hexLower)⟩
    | none =>
      .error ⟨"color", "must be in rgb(r,g,b) or #rrggbb/#rgb format"⟩

/-- Embeds `isValidUUIDAny` from `shared/types/branded.ts`: the regex
`^[0-9a-f]{8}-[0-9a-f]{4}-[0-9a-f]{4}-[0-9a-f]{4}-[0-9a-f]{12}$/i`,
expressed through the hyphen-separated hunk structure it enforces. -/
def isValidUUIDAny (id : String) : Bool :=
  match splitOnChar '-' id.toList with
  | [a, b, c, d, e] =>
    a.length = 8 && b.length = 4 && c.length = 4 && d.length = 4 &&
      e.length = 12 &&
      (a ++ b ++ c ++ d ++ e).all hexChar
  | _ => false

/-- Embeds the raw `HorseProps` input record of `Horse.create`; the
`condition` field is a JavaScript number, embedded as `ℚ`. -/
structure HorseProps where
  id : String
  propName : String
  color : String
  condition : ℚ
deriving DecidableEq, Repr

/-- Embeds the `Horse` composite value object. -/
structure Horse where
  id : String
  horseName : HorseName
  color : HorseColor
  condition : Condition
deriving DecidableEq, Repr

/-- Wrapper giving the three component validation results of
`Horse.create` one common type, so the source's heterogeneous
`combine([nameResult, colorResult, conditionResult])` array can be
embedded as a homogeneous list. -/
inductive HorsePart where
  | partName (n : HorseName)
  | partColor (c : HorseColor)
  | partCondition (c : Condition)
deriving DecidableEq, Repr

/-- Embeds `combine` from `shared/Result.ts`: folds a list of results into
a result of the list of values, returning the first error encountered. -/
def combine {ε α : Type} : List (Except ε α) → Except ε (List α)
  | [] => .ok []
  | r :: rest =>
    match r with
    | .error e => .error e
    | .ok v =>
      match combine rest with
      | .error e => .error e
      | .ok vs => .ok (v :: vs)

/-- Embeds `Horse.create`: validates the id (the `createHorseId` factory
throws on an invalid UUID, caught and converted), then combines the
name, color and condition validations, keeping the first error. -/
def Horse.create (props : HorseProps) : Except ValidationError Horse :=
  if !isValidUUIDAny props.id then
    .error ⟨"id", "must be a valid UUID"⟩
  else
    let nameResult := (HorseName.create props.propName).map HorsePart.partName
    let colorResult := (HorseColor.create props.color).map HorsePart.partColor
    let conditionResult := (Condition.create props.condition).map HorsePart.partCondition
    match combine [nameResult, colorResult, conditionResult] with
    | .error e => .error e
    | .ok [HorsePart.partName n, HorsePart.partColor c, HorsePart.partCondition k] =>
      .ok ⟨props.id, n, c, k⟩
    | .ok _ => .error ⟨"internal", "combine shape"⟩

/-- Embeds the `Distance` value object: one of the fixed valid distances,
in meters. -/
structure Distance where
  value : ℤ
deriving DecidableEq, Repr

/-- Embeds `VALID_DISTANCES` from `Distance.ts`. -/
def VALID_DISTANCES : List ℤ := [1200, 1400, 1600, 1800, 2000, 2200]

/-- Embeds `Distance.create`: accepts exactly the predefined distances. -/
def Distance.create (value : ℤ) : Except ValidationError Distance :=
  if value ∈ VALID_DISTANCES then .ok ⟨value⟩
  else .error ⟨"distance", "must be one of the valid distances"⟩

/-! ## RunningHorse entity

Embeds the `RunningHorse` entity (its full source appears in
`architecture/testing/unit-testing.md`): a horse participating in a
race, with mutable `position` and `isFinished` state. -/

structure RunningHorse where
  hid : ℕ
  horse : Horse
  position : ℤ
  isFinished : Bool
deriving DecidableEq, Repr

instance : Inhabited RunningHorse :=
  ⟨⟨0, ⟨"", ⟨""⟩, ⟨""⟩, ⟨1⟩⟩, 0, false⟩⟩

/-- Embeds the `name` convenience getter (`this._horse.name.value`). -/
def RunningHorse.name (h : RunningHorse) : String := h.horse.horseName.value

/-- Embeds the `condition` convenience getter (`this._horse.condition.value`). -/
def RunningHorse.condition (h : RunningHorse) : ℤ := h.horse.condition.value

/-- Embeds `RunningHorse.create`: position 0, not finished; the generated
`RunningHorseId` is supplied as `hid`. -/
def RunningHorse.create (horse : Horse) (hid : ℕ) : RunningHorse :=
  ⟨hid, horse, 0, false⟩

/-- Embeds `RunningHorse.run`: fails if already finished; otherwise draws
`movement = Math.floor(random() * condition) + 1` (the random draw `r` is
passed in explicitly), adds it to the position, clamping to `raceLength`
and setting the finished flag when the finish line is reached, and
returns the unclamped movement. -/
def RunningHorse.run (h : RunningHorse) (raceLength : ℤ) (r : ℚ) :
    Except RaceError (ℤ × RunningHorse) :=
  if h.isFinished then
    .error (.horseAlreadyFinished h.hid)
  else
    let movement : ℤ := ⌊r * (h.condition : ℚ)⌋ + 1
    let newPosition := h.position + movement
    if newPosition ≥ raceLength then
      .ok (movement, { h with position := raceLength, isFinished := true })
    else
      .ok (movement, { h with position := newPosition })

/-! ## Race aggregate root

Embeds `src/domain/entities/Race.ts` together with the pending domain
event buffer it inherits from `AggregateRoot`. The event classes of
`RaceEvents.ts` become one inductive, each constructor keeping the
payload fields of its class. `results` holds lineup indices, embedding
the source's array of references into the fixed `_horses` array. -/

structure HorsePosition where
  horseId : ℕ
  horseName : String
  position : ℤ
  isFinished : Bool
deriving DecidableEq, Repr

structure RaceResult where
  place : ℕ
  horseId : ℕ
  horseName : String
  finishPosition : ℤ
deriving DecidableEq, Repr

inductive RaceEvent where
  | raceStarted (raceId : ℕ) (horseCount : ℕ) (distance : ℤ)
  | turnCompleted (raceId : ℕ) (turnNumber : ℕ) (positions : List HorsePosition)
  | horseFinished (raceId : ℕ) (horseId : ℕ) (horseName : String)
      (finishPosition : ℤ) (place : ℕ)
  | raceFinished (raceId : ℕ) (results : List RaceResult)
deriving DecidableEq, Repr

structure Race where
  rid : ℕ
  horses : List RunningHorse
  results : List ℕ
  distance : Distance
  isStarted : Bool
  turnCount : ℕ
  events : List RaceEvent
deriving DecidableEq, Repr

/-- Embeds the derived `isFinished` getter:
`results.length === horses.length`. -/
def Race.isFinished (race : Race) : Bool :=
  race.results.length == race.horses.length

/-- Embeds the `raceLength` getter (`this._distance.meters`). -/
def Race.raceLength (race : Race) : ℤ := race.distance.value

/-- Embeds `Race.create`: rejects an empty lineup, otherwise wraps every
horse in a fresh `RunningHorse`; generated running-horse ids are
embedded by the lineup index. -/
def Race.create (horses : List Horse) (distance : Distance) (rid : ℕ) :
    Except RaceError Race :=
  if horses.length = 0 then
    .error .noHorses
  else
    .ok { rid := rid
          horses := horses.enum.map fun p => RunningHorse.create p.2 p.1
          results := []
          distance := distance
          isStarted := false
          turnCount := 0
          events := [] }

/-- Embeds `Race.reconstitute`: rebuilds a race from persisted state. -/
def Race.reconstitute (rid : ℕ) (horses : List RunningHorse) (distance : Distance)
    (results : List ℕ) (isStarted : Bool) (turnCount : ℕ) : Race :=
  { rid := rid, horses := horses, results := results, distance := distance
    isStarted := isStarted, turnCount := turnCount, events := [] }

/-- Embeds `Race.start`: fails on a finished race; on a not-yet-started
race flips the flag and emits `RaceStarted`; on an already-started race
succeeds without emitting. -/
def Race.start (race : Race) : Except RaceError Race :=
  if race.isFinished then
    .error (.raceAlreadyFinished race.rid)
  else if !race.isStarted then
    .ok { race with
          isStarted := true
          events := race.events ++
            [.raceStarted race.rid race.horses.length race.distance.value] }
  else
    .ok race

/-- Embeds the movement loop of `Race.turn`: walks the lineup, running
every not-yet-finished horse on the next random draw and collecting the
horses that just finished, paired with their lineup index. Arguments
after the lineup are the current lineup index and the draw counter;
returns the updated lineup, the newly finished horses in lineup order,
and the number of draws consumed. The `error` branch of `run` is
unreachable here because only unfinished horses are run. -/
def moveHorses (raceLength : ℤ) (rs : ℕ → ℚ) :
    List RunningHorse → ℕ → ℕ → List RunningHorse × List (ℕ × RunningHorse) × ℕ
  | [], _, k => ([], [], k)
  | h :: t, i, k =>
    if h.isFinished then
      let rest := moveHorses raceLength rs t (i + 1) k
      (h :: rest.1, rest.2.1, rest.2.2)
    else
      match h.run raceLength (rs k) with
      | .ok (_, h') =>
        let rest := moveHorses raceLength rs t (i + 1) (k + 1)
        (h' :: rest.1, (if h'.isFinished then [(i, h')] else []) ++ rest.2.1, rest.2.2)
      | .error _ =>
        let rest := moveHorses raceLength rs t (i + 1) (k + 1)
        (h :: rest.1, rest.2.1, rest.2.2)

/-- Insertion step of the sort below. -/
def insertByIdx (p : ℕ × RunningHorse) :
    List (ℕ × RunningHorse) → List (ℕ × RunningHorse)
  | [] => [p]
  | q :: t => if p.1 ≤ q.1 then p :: q :: t else q :: insertByIdx p t

/-- Embeds the `newlyFinished.sort` call of `Race.turn`: sorts the newly
finished horses by lineup index ascending (the source's comparator
`indexA - indexB`, where `indexOf` reference lookup is embedded by the
recorded lineup index). -/
def sortByIdx : List (ℕ × RunningHorse) → List (ℕ × RunningHorse)
  | [] => []
  | p :: t => insertByIdx p (sortByIdx t)

/-- Embeds the results loop of `Race.turn`: appends each newly finished
horse to `results`, emitting a `HorseFinished` event whose `place` is
the length of `results` right after the push. -/
def pushResults (raceId : ℕ) :
    List (ℕ × RunningHorse) → List ℕ → List RaceEvent → List ℕ × List RaceEvent
  | [], results, evs => (results, evs)
  | (i, h) :: t, results, evs =>
    let results' := results ++ [i]
    let place := results'.length
    pushResults raceId t results'
      (evs ++ [.horseFinished raceId h.hid h.name h.position place])

/-- Embeds the `RaceFinished` payload construction of `Race.turn`:
`results.map((h, index) => ({place: index + 1, ...}))`, with the stored
lineup indices resolved against the updated lineup. -/
def raceResultsOf (horses : List RunningHorse) (results : List ℕ) : List RaceResult :=
  results.enum.map fun p =>
    let h := horses.getD p.2 default
    { place := p.1 + 1, horseId := h.hid, horseName := h.name
      finishPosition := h.position }

/-- Embeds the `TurnCompleted` payload construction of `Race.turn`. -/
def positionsOf (horses : List RunningHorse) : List HorsePosition :=
  horses.map fun h =>
    { horseId := h.hid, horseName := h.name, position := h.position
      isFinished := h.isFinished }

/-- Embeds `Race.turn`: checks the not-started guard, then the finished
guard; increments `turnCount`; moves all unfinished horses (consuming
one random draw per horse run, in lineup order); sorts the newly
finished horses by lineup index; appends them to `results` emitting
`HorseFinished` events; emits `TurnCompleted` with all positions; and
emits `RaceFinished` when the race just became finished. -/
def Race.turn (race : Race) (rs : ℕ → ℚ) : Except RaceError Race :=
  if !race.isStarted then
    .error (.raceNotStarted race.rid)
  else if race.isFinished then
    .error (.raceAlreadyFinished race.rid)
  else
    let turnCount := race.turnCount + 1
    let moved := moveHorses race.raceLength rs race.horses 0 0
    let horses := moved.1
    let newlyFinished := sortByIdx moved.2.1
    let pushed := pushResults race.rid newlyFinished race.results []
    let results := pushed.1
    let evs1 := pushed.2
    let evs2 := evs1 ++ [.turnCompleted race.rid turnCount (positionsOf horses)]
    let evs3 :=
      if results.length == horses.length then
        evs2 ++ [.raceFinished race.rid (raceResultsOf horses results)]
      else evs2
    .ok { race with
          horses := horses
          results := results
          turnCount := turnCount
          events := race.events ++ evs3 }

/-- Embeds `clearDomainEvents` from `AggregateRoot`: returns the pending
events and the aggregate with an emptied buffer. -/
def Race.clearDomainEvents (race : Race) : List RaceEvent × Race :=
  (race.events, { race with events := [] })

/-! ## EventBus

Embeds `application/EventBus.ts`. Handlers are opaque callbacks in the
source; they are embedded by identifiers (naturals). The source's
`Map<string, Set<EventHandler>>` and `Set<EventHandler>` iterate in
insertion order and ignore re-insertion of a present element, so they
are embedded as insertion-ordered duplicate-free lists. `publish`
invokes handlers for side effects; its embedding returns the invocation
order. -/

structure EventBus where
  handlers : List (String × List ℕ)
  allHandlers : List ℕ
deriving DecidableEq, Repr

def EventBus.empty : EventBus := ⟨[], []⟩

/-- Embeds `Set.add`: appends the handler unless already present. -/
def addToSet (h : ℕ) (s : List ℕ) : List ℕ :=
  if h ∈ s then s else s ++ [h]

/-- Embeds `handlers.get(eventType)` followed by `Set.add` (creating the
entry first when absent, as `subscribe` does). -/
def addTypeHandler : List (String × List ℕ) → String → ℕ → List (String × List ℕ)
  | [], eventType, h => [(eventType, [h])]
  | (k, s) :: t, eventType, h =>
    if k = eventType then (k, addToSet h s) :: t
    else (k, s) :: addTypeHandler t eventType h

/-- Embeds `handlers.get(eventType)` in `publish`: the handler set for the
type, or nothing (the `undefined` map miss, which skips the loop). -/
def lookupType : List (String × List ℕ) → String → List ℕ
  | [], _ => []
  | (k, s) :: t, eventType => if k = eventType then s else lookupType t eventType

/-- Embeds `EventBus.subscribe` (the subscription effect; the returned
unsubscribe closure is not needed by any claim). -/
def EventBus.subscribe (bus : EventBus) (eventType : String) (handler : ℕ) : EventBus :=
  { bus with handlers := addTypeHandler bus.handlers eventType handler }

/-- Embeds `EventBus.subscribeAll`. -/
def EventBus.subscribeAll (bus : EventBus) (handler : ℕ) : EventBus :=
  { bus with allHandlers := addToSet handler bus.allHandlers }

/-- Embeds `EventBus.publish`: awaits every type-specific handler for the
event's type (in set order), then every subscribe-all handler (in set
order). The embedding returns the handler invocation order. -/
def EventBus.publishOrder (bus : EventBus) (eventType : String) : List ℕ :=
  lookupType bus.handlers eventType ++ bus.allHandlers

/-- One registration call against the bus: `subscribe(eventType, handler)`
or `subscribeAll(handler)`. -/
inductive RegOp where
  | subType (eventType : String) (handler : ℕ)
  | subAll (handler : ℕ)
deriving DecidableEq, Repr

/-- Replays a registration history against a bus. -/
def applyOps : EventBus → List RegOp → EventBus
  | bus, [] => bus
  | bus, .subType eventType h :: t => applyOps (bus.subscribe eventType h) t
  | bus, .subAll h :: t => applyOps (bus.subscribeAll h) t

/-- First-occurrence deduplication, the order a `Set` built by repeated
`add` calls iterates in. -/
def dedupFirst : List ℕ → List ℕ
  | [] => []
  | h :: t => h :: (dedupFirst t).filter (· ≠ h)

/-- The handlers a registration history subscribed specifically to
`eventType`, in registration order (re-registrations ignored). -/
def regOrderTyped (ops : List RegOp) (eventType : String) : List ℕ :=
  dedupFirst (ops.filterMap fun op =>
    match op with
    | .subType s h => if s = eventType then some h else none
    | .subAll _ => none)

/-- The handlers a registration history subscribed to all events, in
registration order (re-registrations ignored). -/
def regOrderAll (ops : List RegOp) : List ℕ :=
  dedupFirst (ops.filterMap fun op =>
    match op with
    | .subType _ _ => none
    | .subAll h => some h)

/-! ## StartRaceCommand driver

Embeds `StartRaceCommand.ts` over an explicit state: the game state
store (the Pinia store's `stateAdapter`), the command's interval handle,
the timer port's set of scheduled timers, and the published events.
`handleRaceComplete` recursively re-invokes `execute`; the recursion is
bounded by the number of remaining races and is embedded with an
explicit `fuel` bound consumed only at that recursive call. -/

structure StoreState where
  races : List Race
  currentRaceIndex : ℕ
  running : Bool
  tick : ℕ
deriving Repr

/-- Embeds the store's `getCurrentRace` computed value:
`races[currentRaceIndex]`, `undefined` when out of range. -/
def StoreState.getCurrentRace (s : StoreState) : Option Race :=
  s.races[s.currentRaceIndex]?

/-- Embeds writing back the (in TypeScript, in-place mutated) current
race object into the store. -/
def StoreState.setCurrentRace (s : StoreState) (race : Race) : StoreState :=
  { s with races := s.races.set s.currentRaceIndex race }

/-- Embeds the store's `advanceToNextRace`: steps the index when a next
race exists and reports whether it did. -/
def StoreState.advanceToNextRace (s : StoreState) : Bool × StoreState :=
  let nextIndex := s.currentRaceIndex + 1
  if nextIndex < s.races.length then
    (true, { s with currentRaceIndex := nextIndex })
  else
    (false, s)

structure CmdState where
  store : StoreState
  intervalId : Option ℕ
  activeTimers : List ℕ
  nextTimerId : ℕ
  published : List RaceEvent
deriving Repr

/-- Embeds the command's private `clearInterval` helper: cancels the held
interval timer, if any. -/
def CmdState.clearIntervalCmd (s : CmdState) : CmdState :=
  match s.intervalId with
  | none => s
  | some tid =>
    { s with intervalId := none, activeTimers := s.activeTimers.filter (· ≠ tid) }

/-- Embeds `handleRaceComplete` up to its recursive `execute()` call:
clears the timer, marks the run-flag false, and advances to the next
race; reports whether a next race exists. -/
def CmdState.completeStep (s : CmdState) : CmdState × Bool :=
  let s1 := s.clearIntervalCmd
  let s2 := { s1 with store := { s1.store with running := false } }
  let (hasNext, store') := s2.store.advanceToNextRace
  ({ s2 with store := store' }, hasNext)

/-- Embeds `StartRaceCommand.execute`: no-op success when already
running; `RaceNotFoundError` when no current race exists; when the
current race is already finished, runs the completion/advance path
(`handleRaceComplete`, whose recursive `execute()` call consumes one
unit of fuel — the recursion is bounded by the number of races, so any
fuel of at least `races.length` is exact); otherwise starts the race,
drains and publishes its pending events, sets the run-flag and
schedules the interval timer. -/
def executeStart : ℕ → CmdState → CmdState × Except RaceError Unit
  | fuel, s =>
    if s.store.running then
      (s, .ok ())
    else
      match s.store.getCurrentRace with
      | none => (s, .error (.raceNotFound s.store.currentRaceIndex))
      | some race =>
        match race.start with
        | .error _ =>
          let (s', hasNext) := s.completeStep
          if hasNext then
            let s'' := { s' with store := { s'.store with tick := 0 } }
            match fuel with
            | 0 => (s'', .ok ())
            | fuel' + 1 => executeStart fuel' s''
          else
            (s', .ok ())
        | .ok race' =>
          let (startEvents, race'') := race'.clearDomainEvents
          let s1 := { s with
                      store := s.store.setCurrentRace race''
                      published := s.published ++ startEvents }
          let s2 := { s1 with store := { s1.store with running := true } }
          let tid := s2.nextTimerId
          ({ s2 with
             intervalId := some tid
             activeTimers := s2.activeTimers ++ [tid]
             nextTimerId := tid + 1 }, .ok ())

/-- Embeds calling `start()` N times in a row on the same race, stopping
at the first failure (each successful call leaves the race it returned). -/
def Race.startN (race : Race) : ℕ → Except RaceError Race
  | 0 => .ok race
  | n + 1 =>
    match race.start with
    | .error e => .error e
    | .ok r' => r'.startN n

/-- Recognizes a `HorseFinished` event. -/
def RaceEvent.isHorseFinished : RaceEvent → Bool
  | .horseFinished _ _ _ _ _ => true
  | _ => false

/-- Recognizes a `RaceFinished` event. -/
def RaceEvent.isRaceFinished : RaceEvent → Bool
  | .raceFinished _ _ => true
  | _ => false


/-- Closed form of the event block the results loop of `Race.turn`
produces: one `HorseFinished` per newly finished horse, with places
numbered consecutively from `base + 1` (where `base` is the number of
results already recorded before the loop). -/
def finishEvents (rid : ℕ) (base : ℕ) : List (ℕ × RunningHorse) → List RaceEvent
  | [] => []
  | (_, h) :: t =>
    .horseFinished rid h.hid h.name h.position (base + 1) :: finishEvents rid (base + 1) t

/-- The race states reachable through the aggregate's public lifecycle:
a successful `create`, followed by any sequence of successful `start()`
and `turn()` calls (failed calls return only an error and produce no new
state). -/
inductive Reachable : Race → Prop where
  | created (horses : List Horse) (distance : Distance) (rid : ℕ) (race : Race) :
      Race.create horses distance rid = .ok race → Reachable race
  | started (race race' : Race) :
      Reachable race → race.start = .ok race' → Reachable race'
  | turned (race race' : Race) (rs : ℕ → ℚ) :
      Reachable race → race.turn rs = .ok race' → Reachable race'

/-- The `Race` aggregate invariant of the specification:
`results.length ≤ horses.length`; `isFinished` iff every horse is in
`results`; no horse is in `results` twice; and a horse is in `results`
only if its own finished flag is set. (`results` entries are lineup
indices, the embedding of the source's references into `_horses`.) -/
def RaceInv (race : Race) : Prop :=
  race.results.length ≤ race.horses.length ∧
  (race.isFinished = true ↔ race.results.length = race.horses.length) ∧
  race.results.Nodup ∧
  ∀ i ∈ race.results, i < race.horses.length ∧
    (race.horses.getD i default).isFinished = true

/-! ### Concrete instances used by witnesses -/

def c3Horse : RunningHorse :=
  ⟨0, ⟨"550e8400-e29b-41d4-a716-446655440000", ⟨"Bolt"⟩, ⟨"#aabbcc"⟩, ⟨50⟩⟩, 0, false⟩

def c5Race : Race :=
  Race.reconstitute 4 [c3Horse] ⟨1200⟩ [] false 0

def c6Race : Race :=
  Race.reconstitute 3 [{ c3Horse with position := 1200, isFinished := true }]
    ⟨1200⟩ [0] false 5

/-- A random source that always draws 0 (minimum movement). -/
def zeroDraws : ℕ → ℚ := fun _ => 0

def cwHorse (hid : ℕ) (nm : String) (pos : ℤ) : RunningHorse :=
  ⟨hid, ⟨"id", ⟨nm⟩, ⟨"#000000"⟩, ⟨50⟩⟩, pos, false⟩

def c1Race : Race :=
  Race.reconstitute 1 [cwHorse 0 "Bolt" 0] ⟨1200⟩ [] true 0

def c1After : Race :=
  { rid := 1
    horses := [cwHorse 0 "Bolt" 1]
    results := []
    distance := ⟨1200⟩
    isStarted := true
    turnCount := 1
    events := [.turnCompleted 1 1 [⟨0, "Bolt", 1, false⟩]] }

def c2Race : Race :=
  Race.reconstitute 2 [cwHorse 0 "Alfa" 1199, cwHorse 1 "Beta" 1199] ⟨1200⟩ [] true 5

def c2After : Race :=
  { rid := 2
    horses := [{ cwHorse 0 "Alfa" 1200 with isFinished := true },
               { cwHorse 1 "Beta" 1200 with isFinished := true }]
    results := [0, 1]
    distance := ⟨1200⟩
    isStarted := true
    turnCount := 6
    events := [.horseFinished 2 0 "Alfa" 1200 1, .horseFinished 2 1 "Beta" 1200 2,
               .turnCompleted 2 6 [⟨0, "Alfa", 1200, true⟩, ⟨1, "Beta", 1200, true⟩],
               .raceFinished 2 [⟨1, 0, "Alfa", 1200⟩, ⟨2, 1, "Beta", 1200⟩]] }

def c4Horse : Horse :=
  ⟨"550e8400-e29b-41d4-a716-446655440000", ⟨"Gamma"⟩, ⟨"#112233"⟩, ⟨70⟩⟩

/-- The first invalid component of `HorseProps` in the fixed check order
id, name, color, condition — the error `Horse.create` is specified to
report — or `none` when every component is valid. -/
def firstInvalidError (props : HorseProps) : Option ValidationError :=
  if !isValidUUIDAny props.id then some ⟨"id", "must be a valid UUID"⟩
  else
    match HorseName.create props.propName with
    | .error e => some e
    | .ok _ =>
      match HorseColor.create props.color with
      | .error e => some e
      | .ok _ =>
        match Condition.create props.condition with
        | .error e => some e
        | .ok _ => none

/-- How many of the four components of `HorseProps` are invalid. -/
def invalidCount (props : HorseProps) : ℕ :=
  (if isValidUUIDAny props.id then 0 else 1) +
    (match HorseName.create props.propName with | .ok _ => 0 | .error _ => 1) +
    (match HorseColor.create props.color with | .ok _ => 0 | .error _ => 1) +
    (match Condition.create props.condition with | .ok _ => 0 | .error _ => 1)

/-- Driver state with no program loaded and not running. -/
def c9Empty : CmdState := ⟨⟨[], 0, false, 0⟩, none, [], 0, []⟩

/-- Driver state whose store already reports running. -/
def c9Running : CmdState := ⟨⟨[], 0, true, 0⟩, none, [], 0, []⟩

/-! ### The deterministic 12-turn scenario (C7) -/

def c7Horse : Horse :=
  ⟨"550e8400-e29b-41d4-a716-446655440000", ⟨"Ada"⟩, ⟨"#ffffff"⟩, ⟨100⟩⟩

/-- The scenario's random source: every draw returns 0.99. -/
def c7rs : ℕ → ℚ := fun _ => 99/100

/-- The scenario's race right after `create` and `start()`. -/
def c7Start : Except RaceError Race :=
  (Race.create [c7Horse] ⟨1200⟩ 0).bind Race.start

/-- The scenario's race after `k` further `turn()` calls. -/
def c7Turns : ℕ → Except RaceError Race
  | 0 => c7Start
  | n + 1 => (c7Turns n).bind fun r => r.turn c7rs

/-- Closed form of the scenario's pending event buffer after `k` turns. -/
def c7Events : ℕ → List RaceEvent
  | 0 => [.raceStarted 0 1 1200]
  | k + 1 =>
    c7Events k ++
      (if k + 1 = 12 then
        [.horseFinished 0 0 "Ada" 1200 1,
         .turnCompleted 0 12 [⟨0, "Ada", 1200, true⟩],
         .raceFinished 0 [⟨1, 0, "Ada", 1200⟩]]
      else [.turnCompleted 0 (k + 1) [⟨0, "Ada", 100 * (k + 1), false⟩]])

/-- Closed form of the scenario's race state after `k` turns (valid for
`k ≤ 12`). -/
def c7State (k : ℕ) : Race :=
  { rid := 0
    horses := [⟨0, c7Horse, 100 * (k : ℤ), decide (k = 12)⟩]
    results := if k = 12 then [0] else []
    distance := ⟨1200⟩
    isStarted := true
    turnCount := k
    events := c7Events k }

/-! ## Theorems -/

theorem start_of_started (race : Race) (h1 : race.isStarted = true)
    (h2 : race.isFinished = false) : race.start = .ok race := by
  simp [Race.start, h1, h2]

theorem startN_of_started (race : Race) (h1 : race.isStarted = true)
    (h2 : race.isFinished = false) : ∀ n, race.startN n = .ok race := by
  intro n
  induction n with
  | zero => rfl
  | succ n ih => simp only [Race.startN, start_of_started race h1 h2, ih]

/-- C3: for every condition in `[1, 100]` and every random draw `r` in
`[0, 1)`, running a not-yet-finished horse succeeds with the unclamped
movement `⌊r * condition⌋ + 1` as its success value, and that movement
satisfies `1 ≤ movement ≤ condition`. -/
theorem run_movement_bounds (h : RunningHorse) (raceLength : ℤ) (r : ℚ)
    (hc1 : 1 ≤ h.condition) (hc2 : h.condition ≤ 100)
    (hr0 : 0 ≤ r) (hr1 : r < 1) (hnf : h.isFinished = false) :
    (∃ h', h.run raceLength r = .ok (⌊r * (h.condition : ℚ)⌋ + 1, h')) ∧
      1 ≤ ⌊r * (h.condition : ℚ)⌋ + 1 ∧
      ⌊r * (h.condition : ℚ)⌋ + 1 ≤ h.condition := by
  have hc0 : (0 : ℚ) ≤ (h.condition : ℚ) := by
    exact_mod_cast le_trans zero_le_one hc1
  have hlow : 0 ≤ ⌊r * (h.condition : ℚ)⌋ :=
    Int.floor_nonneg.mpr (mul_nonneg hr0 hc0)
  have hup : ⌊r * (h.condition : ℚ)⌋ < h.condition := by
    apply Int.floor_lt.mpr
    have hcpos : (0 : ℚ) < (h.condition : ℚ) := by
      exact_mod_cast lt_of_lt_of_le zero_lt_one hc1
    calc r * (h.condition : ℚ) < 1 * (h.condition : ℚ) :=
          mul_lt_mul_of_pos_right hr1 hcpos
      _ = (h.condition : ℚ) := one_mul _
  refine ⟨?_, by omega, by omega⟩
  simp only [RunningHorse.run, hnf, Bool.false_eq_true, if_false]
  split
  · exact ⟨_, rfl⟩
  · exact ⟨_, rfl⟩


/-- Witness for C3 at condition 50 and draw `1/2`. -/
theorem run_movement_bounds_witness :
    (1 ≤ c3Horse.condition ∧ c3Horse.condition ≤ 100 ∧
        (0 : ℚ) ≤ 1/2 ∧ (1/2 : ℚ) < 1 ∧ c3Horse.isFinished = false) ∧
      (∃ h', c3Horse.run 1200 (1/2) =
          .ok (⌊(1/2 : ℚ) * (c3Horse.condition : ℚ)⌋ + 1, h')) ∧
      1 ≤ ⌊(1/2 : ℚ) * (c3Horse.condition : ℚ)⌋ + 1 ∧
      ⌊(1/2 : ℚ) * (c3Horse.condition : ℚ)⌋ + 1 ≤ c3Horse.condition :=
  ⟨⟨by decide, by decide, by norm_num, by norm_num, rfl⟩,
    run_movement_bounds c3Horse 1200 (1/2) (by decide) (by decide)
      (by norm_num) (by norm_num) rfl⟩

/-- C5: starting a not-yet-started, not-finished race N ≥ 1 times
succeeds (the whole chain returns `ok`, so every individual call
returned `ok`) and appends exactly one `RaceStarted` event in total. -/
theorem start_idempotent (race : Race) (hns : race.isStarted = false)
    (hnf : race.isFinished = false) (N : ℕ) (hN : 1 ≤ N) :
    ∃ r', race.startN N = .ok r' ∧
      r'.events = race.events ++
        [.raceStarted race.rid race.horses.length race.distance.value] := by
  obtain ⟨M, rfl⟩ : ∃ M, N = M + 1 := ⟨N - 1, by omega⟩
  have hstart : race.start = .ok
      { race with
        isStarted := true
        events := race.events ++
          [.raceStarted race.rid race.horses.length race.distance.value] } := by
    simp [Race.start, hns, hnf]
  refine ⟨{ race with
            isStarted := true
            events := race.events ++
              [.raceStarted race.rid race.horses.length race.distance.value] },
          ?_, rfl⟩
  simp only [Race.startN, hstart]
  apply startN_of_started
  · rfl
  · exact hnf


/-- Witness for C5: three consecutive `start()` calls on a fresh
one-horse race emit a single `RaceStarted` event. -/
theorem start_idempotent_witness :
    c5Race.isStarted = false ∧ c5Race.isFinished = false ∧ 1 ≤ 3 ∧
      ∃ r', c5Race.startN 3 = .ok r' ∧
        r'.events = c5Race.events ++ [.raceStarted 4 1 1200] :=
  ⟨rfl, rfl, by omega, start_idempotent c5Race rfl rfl 3 (by omega)⟩

/-- C6: `turn()` on a not-started race reports `RaceNotStartedError`,
regardless of whether the race is also finished (the not-started check
runs first), and produces no successor state — in this embedding a
failed call returns only the error, so the race value, its `turnCount`,
`results`, horse positions and pending events are untouched; moreover a
freshly created race has `isStarted = false` and `turnCount = 0`. -/
theorem turn_not_started (race : Race) (rs : ℕ → ℚ) (h : race.isStarted = false) :
    race.turn rs = .error (.raceNotStarted race.rid) ∧
      ∀ horses distance rid r0, Race.create horses distance rid = .ok r0 →
        r0.isStarted = false ∧ r0.turnCount = 0 := by
  constructor
  · simp [Race.turn, h]
  · intro horses distance rid r0 hc
    unfold Race.create at hc
    split at hc
    · exact Except.noConfusion hc
    · cases hc
      exact ⟨rfl, rfl⟩


/-- Witness for C6 at a race that is simultaneously not-started and
finished: the reported error is still `RaceNotStartedError`. -/
theorem turn_not_started_witness :
    c6Race.isStarted = false ∧ c6Race.isFinished = true ∧
      c6Race.turn (fun _ => 0) = .error (.raceNotStarted 3) ∧
      ∀ horses distance rid r0, Race.create horses distance rid = .ok r0 →
        r0.isStarted = false ∧ r0.turnCount = 0 :=
  ⟨rfl, rfl, (turn_not_started c6Race (fun _ => 0) rfl).1,
    (turn_not_started c6Race (fun _ => 0) rfl).2⟩

/-! ### Anatomy of one `turn()` call -/

theorem run_not_finished_ok (h : RunningHorse) (raceLength : ℤ) (r : ℚ)
    (hf : h.isFinished = false) :
    ∃ v, h.run raceLength r = .ok v := by
  simp only [RunningHorse.run, hf, Bool.false_eq_true, if_false]
  split
  · exact ⟨_, rfl⟩
  · exact ⟨_, rfl⟩

theorem moveHorses_spec (raceLength : ℤ) (rs : ℕ → ℚ) :
    ∀ (l : List RunningHorse) (i k : ℕ),
      (moveHorses raceLength rs l i k).1.length = l.length ∧
      (∀ j, (l.getD j default).isFinished = true →
        (moveHorses raceLength rs l i k).1.getD j default = l.getD j default) ∧
      (moveHorses raceLength rs l i k).2.1 =
        (List.range l.length).filterMap fun j =>
          if ((l.getD j default).isFinished = false ∧
              ((moveHorses raceLength rs l i k).1.getD j default).isFinished = true)
          then some (i + j, (moveHorses raceLength rs l i k).1.getD j default)
          else none := by
  intro l
  induction l with
  | nil => exact fun i k => ⟨rfl, fun j _ => rfl, rfl⟩
  | cons h t ih =>
    intro i k
    cases hf : h.isFinished with
    | true =>
      have hmv : moveHorses raceLength rs (h :: t) i k =
          (h :: (moveHorses raceLength rs t (i + 1) k).1,
           (moveHorses raceLength rs t (i + 1) k).2.1,
           (moveHorses raceLength rs t (i + 1) k).2.2) := by
        simp [moveHorses, hf]
      obtain ⟨ihlen, ihstable, ihnf⟩ := ih (i + 1) k
      rw [hmv]
      refine ⟨by simpa using ihlen, ?_, ?_⟩
      · intro j hj
        cases j with
        | zero => rfl
        | succ j => simpa using ihstable j (by simpa using hj)
      · rw [List.length_cons, List.range_succ_eq_map, List.filterMap_cons,
          List.filterMap_map]
        have h0 : (if ((((h :: t).getD 0 default).isFinished = false) ∧
            (((h :: (moveHorses raceLength rs t (i + 1) k).1).getD 0 default).isFinished
              = true))
            then some (i + 0, (h :: (moveHorses raceLength rs t (i + 1) k).1).getD 0 default)
            else none) = none := by
          rw [if_neg]
          simp [hf]
        rw [h0, ihnf]
        apply List.filterMap_congr
        intro j _
        simp only [Function.comp_apply, List.getD_cons_succ]
        rw [show i + 1 + j = i + (j + 1) by omega]
    | false =>
      obtain ⟨⟨m, h'⟩, hrun⟩ := run_not_finished_ok h raceLength (rs k) hf
      have hmv : moveHorses raceLength rs (h :: t) i k =
          (h' :: (moveHorses raceLength rs t (i + 1) (k + 1)).1,
           (if h'.isFinished then [(i, h')] else []) ++
             (moveHorses raceLength rs t (i + 1) (k + 1)).2.1,
           (moveHorses raceLength rs t (i + 1) (k + 1)).2.2) := by
        simp [moveHorses, hf, hrun]
      obtain ⟨ihlen, ihstable, ihnf⟩ := ih (i + 1) (k + 1)
      rw [hmv]
      refine ⟨by simpa using ihlen, ?_, ?_⟩
      · intro j hj
        cases j with
        | zero => simp [List.getD_cons_zero] at hj; rw [hj] at hf; cases hf
        | succ j => simpa using ihstable j (by simpa using hj)
      · rw [List.length_cons, List.range_succ_eq_map, List.filterMap_cons,
          List.filterMap_map]
        have h0 : (if ((((h :: t).getD 0 default).isFinished = false) ∧
            (((h' :: (moveHorses raceLength rs t (i + 1) (k + 1)).1).getD 0
              default).isFinished = true))
            then some (i + 0,
              (h' :: (moveHorses raceLength rs t (i + 1) (k + 1)).1).getD 0 default)
            else none) = (if h'.isFinished then some (i, h') else none) := by
          simp [hf]
        rw [h0, ihnf]
        cases hfin : h'.isFinished with
        | true =>
          simp only [hfin, if_true, List.singleton_append]
          congr 1
          apply List.filterMap_congr
          intro j _
          simp only [Function.comp_apply, List.getD_cons_succ]
          rw [show i + 1 + j = i + (j + 1) by omega]
        | false =>
          simp only [Bool.false_eq_true, if_false, List.nil_append]
          apply List.filterMap_congr
          intro j _
          simp only [Function.comp_apply, List.getD_cons_succ]
          rw [show i + 1 + j = i + (j + 1) by omega]

theorem pushResults_spec (rid : ℕ) :
    ∀ (l : List (ℕ × RunningHorse)) (results : List ℕ) (evs : List RaceEvent),
      pushResults rid l results evs =
        (results ++ l.map Prod.fst, evs ++ finishEvents rid results.length l) := by
  intro l
  induction l with
  | nil => intro results evs; simp [pushResults, finishEvents]
  | cons p t ih =>
    intro results evs
    obtain ⟨i, h⟩ := p
    rw [pushResults, ih]
    simp [finishEvents, List.append_assoc]

theorem finishEvents_getD (rid : ℕ) :
    ∀ (l : List (ℕ × RunningHorse)) (base j : ℕ), j < l.length →
      (finishEvents rid base l).getD j (.raceStarted 0 0 0) =
        .horseFinished rid (l.getD j (0, default)).2.hid (l.getD j (0, default)).2.name
          (l.getD j (0, default)).2.position (base + j + 1) := by
  intro l
  induction l with
  | nil => intro base j hj; cases hj
  | cons p t ih =>
    intro base j hj
    obtain ⟨i, h⟩ := p
    cases j with
    | zero => rfl
    | succ j =>
      rw [finishEvents, List.getD_cons_succ, List.getD_cons_succ,
        ih (base + 1) j (by simpa using hj)]
      congr 1
      omega

theorem finishEvents_length (rid : ℕ) :
    ∀ (l : List (ℕ × RunningHorse)) (base : ℕ),
      (finishEvents rid base l).length = l.length := by
  intro l
  induction l with
  | nil => intro base; rfl
  | cons p t ih =>
    intro base
    obtain ⟨i, h⟩ := p
    simpa [finishEvents] using ih (base + 1)

theorem finishEvents_all_horseFinished (rid : ℕ) :
    ∀ (l : List (ℕ × RunningHorse)) (base : ℕ),
      ∀ e ∈ finishEvents rid base l, e.isHorseFinished = true := by
  intro l
  induction l with
  | nil => intro base e he; cases he
  | cons p t ih =>
    intro base e he
    obtain ⟨i, h⟩ := p
    rw [finishEvents] at he
    rcases List.mem_cons.mp he with rfl | hmem
    · rfl
    · exact ih (base + 1) e hmem

theorem mem_filterMap_if {α : Type} (n i : ℕ) (C : ℕ → Prop) [DecidablePred C]
    (g : ℕ → α) (p : ℕ × α) :
    (p ∈ (List.range n).filterMap fun j => if C j then some (i + j, g j) else none) ↔
      ∃ j, j < n ∧ C j ∧ p = (i + j, g j) := by
  simp only [List.mem_filterMap, List.mem_range]
  constructor
  · rintro ⟨j, hj, hsome⟩
    by_cases hC : C j
    · rw [if_pos hC] at hsome
      exact ⟨j, hj, hC, (Option.some.inj hsome).symm⟩
    · rw [if_neg hC] at hsome
      cases hsome
  · rintro ⟨j, hj, hC, rfl⟩
    exact ⟨j, hj, by rw [if_pos hC]⟩

theorem pairwise_filterMap_if {α : Type} (i : ℕ) (C : ℕ → Prop) [DecidablePred C]
    (g : ℕ → α) (n : ℕ) :
    ((List.range n).filterMap fun j => if C j then some (i + j, g j) else none).Pairwise
      (fun a b => a.1 < b.1) := by
  induction n with
  | zero => simp
  | succ n ih =>
    rw [List.range_succ, List.filterMap_append]
    apply List.pairwise_append.mpr
    refine ⟨ih, ?_, ?_⟩
    · by_cases hC : C n <;> simp [hC]
    · intro a ha b hb
      obtain ⟨j, hj, _, rfl⟩ := (mem_filterMap_if n i C g a).mp ha
      have hb' : b = (i + n, g n) := by
        by_cases hC : C n
        · simpa [hC] using hb
        · simp [hC] at hb
      rw [hb']
      simpa using by omega

theorem insertByIdx_front (p : ℕ × RunningHorse) (l : List (ℕ × RunningHorse))
    (h : ∀ q ∈ l, p.1 ≤ q.1) : insertByIdx p l = p :: l := by
  cases l with
  | nil => rfl
  | cons q t =>
    rw [insertByIdx, if_pos (h q (List.mem_cons_self q t))]

theorem sortByIdx_sorted_eq (l : List (ℕ × RunningHorse))
    (h : l.Pairwise fun a b => a.1 < b.1) : sortByIdx l = l := by
  induction l with
  | nil => rfl
  | cons p t ih =>
    rw [List.pairwise_cons] at h
    rw [sortByIdx, ih h.2]
    exact insertByIdx_front p t fun q hq => le_of_lt (h.1 q hq)

theorem turn_ok_elim (race r' : Race) (rs : ℕ → ℚ) (h : race.turn rs = .ok r') :
    race.isStarted = true ∧ race.isFinished = false ∧
    r' =
      (let moved := moveHorses race.raceLength rs race.horses 0 0
       let horses := moved.1
       let newlyFinished := sortByIdx moved.2.1
       let pushed := pushResults race.rid newlyFinished race.results []
       let results := pushed.1
       let evs2 := pushed.2 ++
         [.turnCompleted race.rid (race.turnCount + 1) (positionsOf horses)]
       let evs3 :=
         if results.length == horses.length then
           evs2 ++ [.raceFinished race.rid (raceResultsOf horses results)]
         else evs2
       { race with
         horses := horses
         results := results
         turnCount := race.turnCount + 1
         events := race.events ++ evs3 }) := by
  unfold Race.turn at h
  split_ifs at h with h1 h2
  exact ⟨by simpa using h1, by simpa using h2, (Except.ok.inj h).symm⟩

theorem turn_analysis (race r' : Race) (rs : ℕ → ℚ) (h : race.turn rs = .ok r') :
    race.isStarted = true ∧ race.isFinished = false ∧
    ∃ nf : List (ℕ × RunningHorse),
      nf = ((List.range race.horses.length).filterMap fun j =>
        if ((race.horses.getD j default).isFinished = false ∧
            (r'.horses.getD j default).isFinished = true)
        then some (0 + j, r'.horses.getD j default) else none) ∧
      r'.horses.length = race.horses.length ∧
      (∀ j, (race.horses.getD j default).isFinished = true →
        r'.horses.getD j default = race.horses.getD j default) ∧
      r'.results = race.results ++ nf.map Prod.fst ∧
      r'.turnCount = race.turnCount + 1 ∧
      r'.rid = race.rid ∧
      r'.isStarted = race.isStarted ∧
      r'.events = race.events ++ finishEvents race.rid race.results.length nf ++
        [.turnCompleted race.rid (race.turnCount + 1) (positionsOf r'.horses)] ++
        (if r'.results.length == r'.horses.length
         then [.raceFinished race.rid (raceResultsOf r'.horses r'.results)]
         else []) := by
  obtain ⟨hstarted, hnotfin, rfl⟩ := turn_ok_elim race r' rs h
  obtain ⟨hlen, hstable, hnf⟩ := moveHorses_spec race.raceLength rs race.horses 0 0
  have hsort : sortByIdx (moveHorses race.raceLength rs race.horses 0 0).2.1 =
      (moveHorses race.raceLength rs race.horses 0 0).2.1 := by
    rw [hnf]
    exact sortByIdx_sorted_eq _ (pairwise_filterMap_if 0 _ _ _)
  refine ⟨hstarted, hnotfin, (moveHorses race.raceLength rs race.horses 0 0).2.1,
    by simpa using hnf, by simpa using hlen, by simpa using hstable, ?_, rfl, rfl, rfl, ?_⟩
  · show (pushResults race.rid
        (sortByIdx (moveHorses race.raceLength rs race.horses 0 0).2.1)
        race.results []).1 = _
    rw [hsort, pushResults_spec]
  · dsimp only
    rw [hsort]
    rw [show (pushResults race.rid (moveHorses race.raceLength rs race.horses 0 0).2.1
        race.results []) =
      (race.results ++ (moveHorses race.raceLength rs race.horses 0 0).2.1.map Prod.fst,
       [] ++ finishEvents race.rid race.results.length
         (moveHorses race.raceLength rs race.horses 0 0).2.1) from pushResults_spec _ _ _ _]
    simp only [List.nil_append]
    split_ifs with hc
    · simp [List.append_assoc]
    · simp [List.append_assoc]

/-- C1: the events a successful `turn()` appends to the pending buffer
are, in this order, zero or more `HorseFinished` events, then exactly
one `TurnCompleted` event, then zero or one `RaceFinished` event, the
latter present exactly when the race became finished during the turn
(the guard ensures the race was unfinished when the turn began). -/
theorem turn_event_order (race r' : Race) (rs : ℕ → ℚ) (h : race.turn rs = .ok r') :
    ∃ hf tn ps rf,
      r'.events = race.events ++ hf ++ [.turnCompleted race.rid tn ps] ++ rf ∧
      (∀ e ∈ hf, e.isHorseFinished = true) ∧
      ((r'.isFinished = true ∧ ∃ res, rf = [.raceFinished race.rid res]) ∨
        (r'.isFinished = false ∧ rf = [])) := by
  obtain ⟨-, -, nf, -, -, -, -, -, -, -, hev⟩ := turn_analysis race r' rs h
  refine ⟨_, _, _, _, hev,
    fun e he => finishEvents_all_horseFinished race.rid nf race.results.length e he, ?_⟩
  by_cases hc : (r'.results.length == r'.horses.length) = true
  · exact Or.inl ⟨hc, _, if_pos hc⟩
  · refine Or.inr ⟨?_, if_neg hc⟩
    show (r'.results.length == r'.horses.length) = false
    exact Bool.not_eq_true _ ▸ hc

/-- C2: the participants that became finished during one successful
`turn()` are appended to `results` ordered by lineup index (lower index
first), the appended indices are exactly those whose horse transitioned
from unfinished to finished this turn, and the j-th `HorseFinished`
event of the turn (appended right after the pre-existing events)
carries place `|old results| + j + 1`, the 1-based position of its
horse in `results` at the moment of insertion. -/
theorem turn_results_tiebreak (race r' : Race) (rs : ℕ → ℚ)
    (h : race.turn rs = .ok r') :
    ∃ newIdx : List ℕ,
      r'.results = race.results ++ newIdx ∧
      newIdx.Pairwise (· < ·) ∧
      (∀ i, i ∈ newIdx ↔ i < race.horses.length ∧
        (race.horses.getD i default).isFinished = false ∧
        (r'.horses.getD i default).isFinished = true) ∧
      ∃ hf rest, r'.events = race.events ++ hf ++ rest ∧
        hf.length = newIdx.length ∧
        ∀ j, j < newIdx.length →
          hf.getD j (.raceStarted 0 0 0) =
            .horseFinished race.rid
              (r'.horses.getD (newIdx.getD j 0) default).hid
              (r'.horses.getD (newIdx.getD j 0) default).name
              (r'.horses.getD (newIdx.getD j 0) default).position
              (race.results.length + j + 1) := by
  obtain ⟨-, -, nf, hnf, -, -, hres, -, -, -, hev⟩ := turn_analysis race r' rs h
  have hmem : ∀ p, p ∈ nf ↔ ∃ j, j < race.horses.length ∧
      ((race.horses.getD j default).isFinished = false ∧
        (r'.horses.getD j default).isFinished = true) ∧
      p = (0 + j, r'.horses.getD j default) := by
    intro p
    rw [hnf]
    exact mem_filterMap_if _ 0 _ _ p
  have hpair : nf.Pairwise fun a b => a.1 < b.1 := by
    rw [hnf]; exact pairwise_filterMap_if 0 _ _ _
  have hsnd : ∀ p ∈ nf, p.2 = r'.horses.getD p.1 default := by
    intro p hp
    obtain ⟨j, -, -, rfl⟩ := (hmem p).mp hp
    simp
  refine ⟨nf.map Prod.fst, hres, ?_, ?_, ?_⟩
  · exact List.Pairwise.map _ (fun a b hab => hab) hpair
  · intro i
    simp only [List.mem_map]
    constructor
    · rintro ⟨p, hp, rfl⟩
      obtain ⟨j, hj, hcond, rfl⟩ := (hmem p).mp hp
      simp only [Nat.zero_add]
      exact ⟨hj, hcond⟩
    · rintro ⟨hi, hcond⟩
      exact ⟨(0 + i, r'.horses.getD i default),
        (hmem _).mpr ⟨i, hi, hcond, rfl⟩, by simp⟩
  · refine ⟨finishEvents race.rid race.results.length nf,
      [RaceEvent.turnCompleted race.rid (race.turnCount + 1) (positionsOf r'.horses)] ++
        (if r'.results.length == r'.horses.length
         then [RaceEvent.raceFinished race.rid (raceResultsOf r'.horses r'.results)]
         else []), ?_, ?_, ?_⟩
    · rw [hev]; simp [List.append_assoc]
    · rw [finishEvents_length, List.length_map]
    · intro j hj
      have hjnf : j < nf.length := by simpa using hj
      have hget := finishEvents_getD race.rid nf race.results.length j hjnf
      rw [hget]
      have hmem' : nf.getD j (0, default) ∈ nf := by
        rw [List.getD_eq_getElem?_getD, List.getElem?_eq_getElem hjnf]
        exact Option.getD_some ▸ List.getElem_mem hjnf
      have hsnd' := hsnd _ hmem'
      have hfst : (nf.map Prod.fst).getD j 0 = (nf.getD j (0, default)).1 := by
        rw [List.getD_eq_getElem?_getD, List.getD_eq_getElem?_getD,
          List.getElem?_map, List.getElem?_eq_getElem hjnf]
        rfl
      rw [hfst, ← hsnd']

theorem c1_turn_step : c1Race.turn zeroDraws = .ok c1After := by
  norm_num [c1Race, c1After, Race.turn, Race.isFinished, Race.raceLength, Race.reconstitute,
    moveHorses, RunningHorse.run, RunningHorse.condition, RunningHorse.name, cwHorse,
    sortByIdx, insertByIdx, pushResults, positionsOf, raceResultsOf, zeroDraws]

/-- Witness for C1: one turn of a fresh one-horse race under draw 0. -/
theorem turn_event_order_witness :
    ∃ hf tn ps rf,
      c1After.events = c1Race.events ++ hf ++ [.turnCompleted c1Race.rid tn ps] ++ rf ∧
      (∀ e ∈ hf, e.isHorseFinished = true) ∧
      ((c1After.isFinished = true ∧ ∃ res, rf = [.raceFinished c1Race.rid res]) ∨
        (c1After.isFinished = false ∧ rf = [])) :=
  turn_event_order c1Race c1After zeroDraws c1_turn_step

theorem c2_turn_step : c2Race.turn zeroDraws = .ok c2After := by
  norm_num [c2Race, c2After, Race.turn, Race.isFinished, Race.raceLength, Race.reconstitute,
    moveHorses, RunningHorse.run, RunningHorse.condition, RunningHorse.name, cwHorse,
    sortByIdx, insertByIdx, pushResults, positionsOf, raceResultsOf, zeroDraws,
    List.enum, List.enumFrom, List.getD]
  decide

/-- Witness for C2: a turn in which both horses of a two-horse race
finish simultaneously. -/
theorem turn_results_tiebreak_witness :
    ∃ newIdx : List ℕ,
      c2After.results = c2Race.results ++ newIdx ∧
      newIdx.Pairwise (· < ·) ∧
      (∀ i, i ∈ newIdx ↔ i < c2Race.horses.length ∧
        (c2Race.horses.getD i default).isFinished = false ∧
        (c2After.horses.getD i default).isFinished = true) ∧
      ∃ hf rest, c2After.events = c2Race.events ++ hf ++ rest ∧
        hf.length = newIdx.length ∧
        ∀ j, j < newIdx.length →
          hf.getD j (.raceStarted 0 0 0) =
            .horseFinished c2Race.rid
              (c2After.horses.getD (newIdx.getD j 0) default).hid
              (c2After.horses.getD (newIdx.getD j 0) default).name
              (c2After.horses.getD (newIdx.getD j 0) default).position
              (c2Race.results.length + j + 1) :=
  turn_results_tiebreak c2Race c2After zeroDraws c2_turn_step

theorem nodup_lt_length_le (l : List ℕ) (n : ℕ) (hnd : l.Nodup)
    (hlt : ∀ x ∈ l, x < n) : l.length ≤ n := by
  have hsub : l.toFinset ⊆ Finset.range n := by
    intro x hx
    exact Finset.mem_range.mpr (hlt x (List.mem_toFinset.mp hx))
  have := Finset.card_le_card hsub
  rwa [List.toFinset_card_of_nodup hnd, Finset.card_range] at this

/-- C4: every race state reachable through `create` / `start()` /
`turn()` satisfies the aggregate invariant: `results` never outgrows the
lineup, `isFinished` holds exactly when every horse is in `results`,
no horse is recorded twice, and a recorded horse's own finished flag is
set. -/
theorem reachable_invariant (race : Race) (h : Reachable race) : RaceInv race := by
  induction h with
  | created horses distance rid race hc =>
    unfold Race.create at hc
    split_ifs at hc
    cases hc
    refine ⟨by simp, by simp [Race.isFinished], by simp, by simp⟩
  | started race race' hreach hstart ih =>
    have : race'.results = race.results ∧ race'.horses = race.horses := by
      unfold Race.start at hstart
      split_ifs at hstart
      · cases hstart; exact ⟨rfl, rfl⟩
      · cases hstart; exact ⟨rfl, rfl⟩
    obtain ⟨h1, h2⟩ := this
    obtain ⟨ih1, _, ih3, ih4⟩ := ih
    exact ⟨by rw [h1, h2]; exact ih1, by simp [Race.isFinished],
      by rw [h1]; exact ih3, by rw [h1, h2]; exact ih4⟩
  | turned race race' rs hreach hturn ih =>
    obtain ⟨ih1, -, ih3, ih4⟩ := ih
    obtain ⟨-, -, nf, hnf, hlen, hstable, hres, -, -, -, -⟩ :=
      turn_analysis race race' rs hturn
    have hmem : ∀ p, p ∈ nf ↔ ∃ j, j < race.horses.length ∧
        ((race.horses.getD j default).isFinished = false ∧
          (race'.horses.getD j default).isFinished = true) ∧
        p = (0 + j, race'.horses.getD j default) := by
      intro p
      rw [hnf]
      exact mem_filterMap_if _ 0 _ _ p
    have hnewmem : ∀ i ∈ nf.map Prod.fst, i < race.horses.length ∧
        (race.horses.getD i default).isFinished = false ∧
        (race'.horses.getD i default).isFinished = true := by
      intro i hi
      obtain ⟨p, hp, rfl⟩ := List.mem_map.mp hi
      obtain ⟨j, hj, hcond, rfl⟩ := (hmem p).mp hp
      simp only [Nat.zero_add]
      exact ⟨hj, hcond⟩
    have hpair : nf.Pairwise fun a b => a.1 < b.1 := by
      rw [hnf]; exact pairwise_filterMap_if 0 _ _ _
    have hnewnodup : (nf.map Prod.fst).Nodup :=
      List.Pairwise.map _ (fun a b hab => Nat.ne_of_lt hab) hpair
    have holdinv : ∀ i ∈ race.results, i < race'.horses.length ∧
        (race'.horses.getD i default).isFinished = true := by
      intro i hi
      obtain ⟨hilt, hifin⟩ := ih4 i hi
      exact ⟨by rwa [hlen], by rw [hstable i hifin]; exact hifin⟩
    have hdisj : race.results.Disjoint (nf.map Prod.fst) := by
      intro i hi hinew
      obtain ⟨-, hnotfin, -⟩ := hnewmem i hinew
      exact absurd (ih4 i hi).2 (by rw [hnotfin]; exact Bool.false_ne_true)
    have hnodup : race'.results.Nodup := by
      rw [hres, List.nodup_append]
      exact ⟨ih3, hnewnodup, hdisj⟩
    have hbound : ∀ i ∈ race'.results, i < race'.horses.length ∧
        (race'.horses.getD i default).isFinished = true := by
      intro i hi
      rw [hres, List.mem_append] at hi
      rcases hi with hi | hi
      · exact holdinv i hi
      · obtain ⟨hlt, -, hfin⟩ := hnewmem i hi
        exact ⟨by rwa [hlen], hfin⟩
    refine ⟨?_, by simp [Race.isFinished], hnodup, hbound⟩
    rw [← hlen] at *
    exact nodup_lt_length_le race'.results race'.horses.length hnodup
      fun x hx => (hbound x hx).1

theorem c7_step (k : ℕ) (hk : k < 12) :
    (c7State k).turn c7rs = .ok (c7State (k + 1)) := by
  interval_cases k <;>
    norm_num [c7State, c7Events, c7rs, c7Horse, Race.turn, Race.isFinished,
      Race.raceLength, moveHorses, RunningHorse.run, RunningHorse.condition,
      RunningHorse.name, sortByIdx, insertByIdx, pushResults, positionsOf,
      raceResultsOf, List.enum, List.enumFrom, List.getD]

theorem c7_turns_eq : ∀ k, k ≤ 12 → c7Turns k = .ok (c7State k) := by
  intro k
  induction k with
  | zero => intro _; rfl
  | succ k ih =>
    intro hk
    rw [c7Turns, ih (by omega)]
    simpa [Except.bind] using c7_step k (by omega)

/-- C7: in the one-horse race of distance 1200 with condition 100 and
every draw 0.99, each turn moves the horse exactly 100 meters (its
position after `k` turns is `100 * k`), it is unfinished before the
12th turn and finishes exactly on the 12th turn clamped at 1200, after
which `turnCount = 12`, `results` holds exactly that horse, and exactly
one `RaceFinished` event was emitted, carrying a single place-1 entry. -/
theorem c7_scenario :
    (∀ k, k ≤ 12 → c7Turns k = .ok (c7State k)) ∧
    (∀ k, k ≤ 12 → ((c7State k).horses.getD 0 default).position = 100 * (k : ℤ)) ∧
    (∀ k, k < 12 → ((c7State k).horses.getD 0 default).isFinished = false) ∧
    ((c7State 12).horses.getD 0 default).isFinished = true ∧
    ((c7State 12).horses.getD 0 default).position = 1200 ∧
    (c7State 12).turnCount = 12 ∧
    (c7State 12).results = [0] ∧
    (c7State 12).events.filter RaceEvent.isRaceFinished =
      [.raceFinished 0 [⟨1, 0, "Ada", 1200⟩]] := by
  refine ⟨c7_turns_eq, fun k _ => rfl, ?_, rfl, by norm_num [c7State], rfl, rfl, ?_⟩
  · intro k hk
    have : (k = 12) = False := by simp; omega
    simp [c7State, this]
  · decide

/-- Witness for C7: the chain of 12 turns applied at its bound, plus an
intermediate state. -/
theorem c7_scenario_witness :
    c7Turns 12 = .ok (c7State 12) ∧
      ((c7State 5).horses.getD 0 default).isFinished = false :=
  ⟨c7_scenario.1 12 (by norm_num), c7_scenario.2.2.1 5 (by norm_num)⟩

/-- Witness for C4: the invariant at a freshly created one-horse race. -/
theorem reachable_invariant_witness :
    RaceInv { rid := 9, horses := [RunningHorse.create c4Horse 0], results := [],
              distance := ⟨1600⟩, isStarted := false, turnCount := 0, events := [] } :=
  reachable_invariant _ (Reachable.created [c4Horse] ⟨1600⟩ 9 _ rfl)

/-! ### EventBus ordering -/

theorem lookupType_addTypeHandler (et et' : String) (h : ℕ) :
    ∀ hs : List (String × List ℕ),
      lookupType (addTypeHandler hs et h) et' =
        if et' = et then addToSet h (lookupType hs et) else lookupType hs et' := by
  intro hs
  induction hs with
  | nil =>
    by_cases he : et' = et
    · simp [addTypeHandler, lookupType, he, addToSet]
    · simp [addTypeHandler, lookupType, he, Ne.symm he]
  | cons p t ih =>
    obtain ⟨k, s⟩ := p
    by_cases hk : k = et
    · subst hk
      by_cases he : et' = k
      · subst he
        simp [addTypeHandler, lookupType]
      · simp [addTypeHandler, lookupType, he, Ne.symm he]
    · by_cases he : et' = k
      · subst he
        simp [addTypeHandler, lookupType, hk]
      · simp [addTypeHandler, lookupType, hk, Ne.symm he, ih]

theorem applyOps_lookup (et : String) :
    ∀ (ops : List RegOp) (bus : EventBus),
      lookupType (applyOps bus ops).handlers et =
        List.foldl (fun s h => addToSet h s) (lookupType bus.handlers et)
          (ops.filterMap fun op =>
            match op with
            | .subType s h => if s = et then some h else none
            | .subAll _ => none) := by
  intro ops
  induction ops with
  | nil => intro bus; rfl
  | cons op t ih =>
    intro bus
    cases op with
    | subType s h =>
      by_cases hs : s = et
      · subst hs
        simp [applyOps, ih, EventBus.subscribe, lookupType_addTypeHandler]
      · simp [applyOps, ih, EventBus.subscribe, lookupType_addTypeHandler, hs,
          Ne.symm hs]
    | subAll h =>
      simp [applyOps, ih, EventBus.subscribeAll]

theorem applyOps_all :
    ∀ (ops : List RegOp) (bus : EventBus),
      (applyOps bus ops).allHandlers =
        List.foldl (fun s h => addToSet h s) bus.allHandlers
          (ops.filterMap fun op =>
            match op with
            | .subType _ _ => none
            | .subAll h => some h) := by
  intro ops
  induction ops with
  | nil => intro bus; rfl
  | cons op t ih =>
    intro bus
    cases op with
    | subType s h => simp [applyOps, ih, EventBus.subscribe]
    | subAll h => simp [applyOps, ih, EventBus.subscribeAll]

theorem dedupFirst_filter (p : ℕ → Bool) :
    ∀ l : List ℕ, dedupFirst (l.filter p) = (dedupFirst l).filter p := by
  intro l
  induction l with
  | nil => rfl
  | cons h t ih =>
    cases hp : p h with
    | false =>
      rw [List.filter_cons_of_neg (by simp [hp]), ih, dedupFirst,
        List.filter_cons_of_neg (by simp [hp]), List.filter_filter]
      apply List.filter_congr
      intro x _
      by_cases hx : x = h
      · simp [hx, hp]
      · simp [hx]
    | true =>
      rw [List.filter_cons_of_pos (by simp [hp]), dedupFirst, dedupFirst, ih,
        List.filter_cons_of_pos (by simp [hp]), List.filter_filter,
        List.filter_filter]
      congr 1
      apply List.filter_congr
      intro x _
      rw [Bool.and_comm]

theorem foldl_addToSet :
    ∀ (l : List ℕ) (s : List ℕ),
      List.foldl (fun s h => addToSet h s) s l =
        s ++ dedupFirst (l.filter fun h => decide (h ∉ s)) := by
  intro l
  induction l with
  | nil => intro s; simp [dedupFirst]
  | cons h t ih =>
    intro s
    rw [List.foldl_cons, ih]
    by_cases hmem : h ∈ s
    · rw [show addToSet h s = s by simp [addToSet, hmem],
        List.filter_cons_of_neg (by simp [hmem])]
    · rw [show addToSet h s = s ++ [h] by simp [addToSet, hmem],
        List.filter_cons_of_pos (by simp [hmem]), dedupFirst, List.append_assoc,
        List.singleton_append]
      congr 2
      rw [show (t.filter fun x => decide (x ∉ s ++ [h])) =
          (t.filter fun x => decide (x ∉ s)).filter fun x => decide (x ≠ h) by
        rw [List.filter_filter]
        apply List.filter_congr
        intro x _
        by_cases hx : x = h <;> by_cases hxs : x ∈ s <;> simp [hx, hxs]]
      rw [dedupFirst_filter]

/-- C8: after any sequence of subscriptions starting from the empty bus,
`publish` for an event of a given type invokes first exactly the
handlers subscribed specifically to that type, in registration order,
then exactly the subscribe-all handlers, in registration order
(re-registering an already-registered handler is a no-op, as for the
source's `Set`). -/
theorem publish_invocation_order (ops : List RegOp) (eventType : String) :
    (applyOps EventBus.empty ops).publishOrder eventType =
      regOrderTyped ops eventType ++ regOrderAll ops := by
  unfold EventBus.publishOrder
  rw [applyOps_lookup, applyOps_all]
  show List.foldl _ (lookupType [] eventType) _ ++ List.foldl _ [] _ = _
  rw [show lookupType [] eventType = [] from rfl, foldl_addToSet, foldl_addToSet]
  simp [regOrderTyped, regOrderAll]

/-! ### StartRaceCommand guards -/

/-- C9: `execute()` is a no-op success (no timer scheduled, state
untouched) when the store already reports running; it fails with
`RaceNotFoundError` at the store's current index (again scheduling no
timer and touching nothing) when no current race exists; and a
`RaceNotFoundError` is the only error it can ever return, for any fuel
bound on its recovery recursion. -/
theorem executeStart_guards :
    (∀ fuel s, s.store.running = true → executeStart fuel s = (s, .ok ())) ∧
    (∀ fuel s, s.store.running = false → s.store.getCurrentRace = none →
      executeStart fuel s = (s, .error (.raceNotFound s.store.currentRaceIndex))) ∧
    (∀ fuel s e, (executeStart fuel s).2 = .error e → ∃ idx, e = .raceNotFound idx) := by
  refine ⟨?_, ?_, ?_⟩
  · intro fuel s h
    unfold executeStart
    rw [if_pos h]
  · intro fuel s h hnone
    unfold executeStart
    rw [if_neg (by simp [h]), hnone]
  · intro fuel
    induction fuel with
    | zero =>
      intro s e h
      unfold executeStart at h
      by_cases hr : s.store.running = true
      · rw [if_pos hr] at h
        cases h
      · rw [if_neg hr] at h
        cases hcur : s.store.getCurrentRace with
        | none =>
          rw [hcur] at h
          dsimp only at h
          exact ⟨s.store.currentRaceIndex, (Except.error.inj h).symm⟩
        | some race =>
          rw [hcur] at h
          dsimp only at h
          cases hst : race.start with
          | ok race' =>
            rw [hst] at h
            dsimp only at h
            cases h
          | error err =>
            rw [hst] at h
            rcases hcs : s.completeStep with ⟨s', hasNext⟩
            rw [hcs] at h
            dsimp only at h
            cases hasNext with
            | false => simp at h
            | true => simp at h
    | succ n ih =>
      intro s e h
      unfold executeStart at h
      by_cases hr : s.store.running = true
      · rw [if_pos hr] at h
        cases h
      · rw [if_neg hr] at h
        cases hcur : s.store.getCurrentRace with
        | none =>
          rw [hcur] at h
          dsimp only at h
          exact ⟨s.store.currentRaceIndex, (Except.error.inj h).symm⟩
        | some race =>
          rw [hcur] at h
          dsimp only at h
          cases hst : race.start with
          | ok race' =>
            rw [hst] at h
            dsimp only at h
            cases h
          | error err =>
            rw [hst] at h
            rcases hcs : s.completeStep with ⟨s', hasNext⟩
            rw [hcs] at h
            dsimp only at h
            cases hasNext with
            | false => simp at h
            | true => exact ih _ _ h

/-- Witness for C9: the already-running and the empty-program guard at
concrete driver states. -/
theorem executeStart_guards_witness :
    executeStart 3 c9Running = (c9Running, .ok ()) ∧
      executeStart 3 c9Empty = (c9Empty, .error (.raceNotFound 0)) :=
  ⟨executeStart_guards.1 3 c9Running rfl, executeStart_guards.2.1 3 c9Empty rfl rfl⟩

/-! ### Horse validation error precedence -/

/-- C10: when more than one component of the props is invalid,
`Horse.create` reports exactly one `ValidationError`: the error of the
first invalid component in the fixed check order id, name, color,
condition (through `combine`, which keeps the first error of the
sequence). -/
theorem horse_create_first_error (props : HorseProps)
    (h : 2 ≤ invalidCount props) :
    ∃ e, Horse.create props = .error e ∧ firstInvalidError props = some e := by
  by_cases hid : isValidUUIDAny props.id
  · cases hn : HorseName.create props.propName with
    | error e =>
      exact ⟨e, by simp [Horse.create, hid, hn, combine, Except.map],
        by simp [firstInvalidError, hid, hn]⟩
    | ok nv =>
      cases hc : HorseColor.create props.color with
      | error e =>
        exact ⟨e, by simp [Horse.create, hid, hn, hc, combine, Except.map],
          by simp [firstInvalidError, hid, hn, hc]⟩
      | ok cv =>
        cases hk : Condition.create props.condition with
        | error e =>
          exact ⟨e, by simp [Horse.create, hid, hn, hc, hk, combine, Except.map],
            by simp [firstInvalidError, hid, hn, hc, hk]⟩
        | ok kv =>
          exfalso
          rw [invalidCount, hn, hc, hk, if_pos hid] at h
          simp at h
  · exact ⟨⟨"id", "must be a valid UUID"⟩, by simp [Horse.create, hid],
      by simp [firstInvalidError, hid]⟩

/-- Witness for C10: props with an invalid id and an invalid condition;
the reported error is the id error. -/
theorem horse_create_first_error_witness :
    2 ≤ invalidCount ⟨"not-a-uuid", "Bolt", "#abcdef", 0⟩ ∧
      ∃ e, Horse.create ⟨"not-a-uuid", "Bolt", "#abcdef", 0⟩ = .error e ∧
        firstInvalidError ⟨"not-a-uuid", "Bolt", "#abcdef", 0⟩ = some e :=
  ⟨by decide, horse_create_first_error ⟨"not-a-uuid", "Bolt", "#abcdef", 0⟩ (by decide)⟩

end HorseRacing
